import Mathlib

set_option maxRecDepth 8000

namespace AiraMusicBot

/-! Shallow embedding of the aira-musicbot playback core.

The queue/orchestrator side lives in `src/bot/discordBot.ts`, the selection and
sequencing services in `src/services/musicService.ts`, the encoder pipeline in
`src/worker/discord/audio/AudioManager.ts`, and the per-guild worker loop in
`src/worker/discord/events/EventHandler.ts` together with the message handler.
JavaScript idioms are modelled explicitly: loosely typed fields are `Option`s
over a primitive-value type, `||`/truthiness is spelled out, object property
reads on possibly missing keys return `Option`, and statements that can throw
are given `Except` types. -/

/-- A JavaScript primitive value as stored in a loosely typed track field
(iTunes XML fields may hold strings or numbers). -/
inductive JSVal where
  | str : String → JSVal
  | num : Int → JSVal
deriving DecidableEq, Repr

/-- JS truthiness of an optional string field: `undefined` and `""` are falsy. -/
def strTruthy : Option String → Bool
  | none => false
  | some s => !(s == "")

/-- JS `a || b` for optional string fields. -/
def jsOrStr (a b : Option String) : Option String :=
  if strTruthy a then a else b

/-- JS `a || d` with a (truthy) string literal default. -/
def jsOrStrD (a : Option String) (d : String) : String :=
  match a with
  | none => d
  | some s => if s == "" then d else s

/-- The fields of `TrackInfo` (src/types/index.ts) consulted by the code under
verification.  `albumArtistField`, `artistField` and `albumField` stand for the
Japanese-named properties アルバムアーティスト, アーティスト and アルバム. -/
structure TrackInfo where
  relativePath : String
  albumArtistField : Option String
  artistField : Option String
  albumField : Option String
  keepTracksInSequence : Option String
  skipWhenShuffling : Option JSVal
  love : Option JSVal
  discNumber : Option Int
  trackNumber : Option Int
deriving DecidableEq, Repr

/-- Bucket key `track["アルバムアーティスト"] || track["アーティスト"] || "Unknown Artist"`
(musicService.ts:39). -/
def artistKeyOf (t : TrackInfo) : String :=
  jsOrStrD (jsOrStr t.albumArtistField t.artistField) "Unknown Artist"

/-- Bucket key `track["アルバム"] || "Unknown Album"` (musicService.ts:40). -/
def albumKeyOf (t : TrackInfo) : String :=
  jsOrStrD t.albumField "Unknown Album"

/-- `LibraryData` (src/types/index.ts): artist name → album name → track list.
JS objects keep string keys in insertion order, so the nested objects are
modelled as association lists and `Object.keys` iteration is list order. -/
structure LibraryData where
  allTracksCount : Nat
  artistMap : List (String × List (String × List TrackInfo))
deriving DecidableEq, Repr

/-- JS property read `m[k]` on an object modelled as an association list:
`some` the stored value, `none` for `undefined`. -/
def lookupKey {β : Type} (m : List (String × β)) (k : String) : Option β :=
  (m.find? (fun p => p.1 == k)).map (fun p => p.2)

/-- All tracks of the library in the iteration order of the nested
`Object.keys` loops of `getRandomItem` (musicService.ts:16-19). -/
def allTracks (lib : LibraryData) : List TrackInfo :=
  ((lib.artistMap.map (fun a => (a.2.map (fun b => b.2)).flatten)).flatten)

/-- Shuffle eligibility test of `getRandomItem` (musicService.ts:20):
`track.SkipWhenShuffling !== "1" && track.Love !== "B"` with JS strict
equality, under which a number is never equal to a string. -/
def isEligible (t : TrackInfo) : Bool :=
  !(t.skipWhenShuffling == some (JSVal.str "1")) && !(t.love == some (JSVal.str "B"))

/-- Loop body of `getRandomItem` (musicService.ts:20-25) acting on the state
(eligible candidates seen so far, current selection).  `rand n` is the value of
the n-th `Math.random()` call; one call is made per eligible candidate. -/
def reservoirStep (rand : Nat → Rat) (st : Nat × Option TrackInfo) (t : TrackInfo) :
    Nat × Option TrackInfo :=
  if isEligible t then
    (st.1 + 1, if rand st.1 < 1 / ((st.1 : Rat) + 1) then some t else st.2)
  else st

/-- `getRandomItem` (musicService.ts:9-31) with `Math.random` modelled as the
stream `rand` of its successive return values. -/
def getRandomItem (lib : LibraryData) (rand : Nat → Rat) : Option TrackInfo :=
  if lib.allTracksCount == 0 then none
  else ((allTracks lib).foldl (reservoirStep rand) ((0 : Nat), (none : Option TrackInfo))).2

/-- Tracks of the library that pass `isEligible`, in iteration order. -/
def eligibleTracks (lib : LibraryData) : List TrackInfo :=
  (allTracks lib).filter isEligible

/-- Sort key of the comparator in `sequenceTracks` (musicService.ts:44-45):
`a["Track Number"] ?? 0`. -/
def trackNumKey (t : TrackInfo) : Int := t.trackNumber.getD 0

/-- The total preorder induced by the comparator `trackNumA - trackNumB`. -/
def trackNumLE (a b : TrackInfo) : Prop := trackNumKey a ≤ trackNumKey b

instance : DecidableRel trackNumLE := fun a b =>
  inferInstanceAs (Decidable (trackNumKey a ≤ trackNumKey b))

instance : IsTotal TrackInfo trackNumLE :=
  ⟨fun a b => Int.le_total (trackNumKey a) (trackNumKey b)⟩

instance : IsTrans TrackInfo trackNumLE :=
  ⟨fun _ _ _ hab hbc => Int.le_trans hab hbc⟩

/-- `sequenceTracks` (musicService.ts:33-52).  The nested indexing
`artistMap[...][...]` is unguarded in the source; a missing bucket makes it
dereference `undefined`, which throws a `TypeError`, modelled as
`Except.error ()`.  `Array.prototype.sort` is a stable sort (ES2019) and a
stable sort by a total preorder has a unique result, so the in-place sort by
the comparator `trackNumA - trackNumB` is modelled by `List.insertionSort`,
which is stable for `trackNumLE`. -/
def sequenceTracks (lib : LibraryData) (track : TrackInfo) : Except Unit (List TrackInfo) :=
  if strTruthy track.keepTracksInSequence then
    match lookupKey lib.artistMap (artistKeyOf track) with
    | none => Except.error ()
    | some albums =>
      match lookupKey albums (albumKeyOf track) with
      | none => Except.error ()
      | some tracksData =>
        Except.ok (List.insertionSort trackNumLE
          (tracksData.filter (fun t => t.keepTracksInSequence == track.keepTracksInSequence)))
  else
    Except.ok [track]

deriving instance DecidableEq for Except

/-! Orchestrator side: `DiscordBot` guild state and the `requestNext` branch of
`setupWorkerEvents` (discordBot.ts:137-168). -/

/-- The per-guild orchestrator state (`GuildState`, src/types/index.ts), with
the worker handle and timing metadata irrelevant to queue behaviour omitted. -/
structure GuildState where
  currentTrack : Option (List TrackInfo)
  requestQueue : List TrackInfo
deriving DecidableEq, Repr

/-- A command the orchestrator posts to the guild worker in response to a
`requestNext` event. -/
inductive BotCmd where
  | play : List TrackInfo → BotCmd
  | leave : BotCmd
deriving DecidableEq, Repr

/-- The `requestNext` branch of `DiscordBot.setupWorkerEvents`
(discordBot.ts:138-168).  The source pops the head, expands it with
`sequenceTracks`, then blindly `shift()`s `trackCount - 1` further items off
the queue (`rest.drop (tracks.length - 1)`; `shift` on an empty queue is a
no-op, matching truncated `List.drop`).  Timestamp bookkeeping and the
queue-changed notification are omitted; a `TypeError` thrown by
`sequenceTracks` propagates out of the handler as `Except.error`. -/
def handleRequestNext (lib : LibraryData) (rand : Nat → Rat) (st : GuildState) :
    Except Unit (GuildState × List BotCmd) :=
  match st.requestQueue with
  | head :: rest =>
    match sequenceTracks lib head with
    | Except.error e => Except.error e
    | Except.ok tracks =>
      Except.ok ({ currentTrack := some tracks, requestQueue := rest.drop (tracks.length - 1) },
        [BotCmd.play tracks])
  | [] =>
    match getRandomItem lib rand with
    | some found =>
      match sequenceTracks lib found with
      | Except.error e => Except.error e
      | Except.ok tracks =>
        Except.ok ({ currentTrack := some tracks, requestQueue := [] }, [BotCmd.play tracks])
    | none => Except.ok ({ currentTrack := none, requestQueue := [] }, [BotCmd.leave])

/-! Distribution semantics of the reservoir loop of `getRandomItem`.
`Math.random()` is uniform on [0,1), so the comparison
`Math.random() < 1 / totalValidTracks` at the n-th eligible candidate is a
Bernoulli branch taken with probability `1/n`.  `reservoirDist ts sel n`
enumerates the branches of the remaining loop over `ts`, starting from current
selection `sel` with `n` eligible candidates already seen, as a weighted list
of final selections. -/
def reservoirDist : List TrackInfo → Option TrackInfo → Nat → List (Rat × Option TrackInfo)
  | [], sel, _ => [(1, sel)]
  | t :: ts, sel, n =>
    ((reservoirDist ts (some t) (n + 1)).map
      (fun p => ((1 / ((n : Rat) + 1)) * p.1, p.2)))
    ++ ((reservoirDist ts sel (n + 1)).map
      (fun p => ((1 - 1 / ((n : Rat) + 1)) * p.1, p.2)))

/-- Probability that a weighted branch list ends in outcome `o`: the total
weight of the branches producing `o`. -/
def probOf (d : List (Rat × Option TrackInfo)) (o : Option TrackInfo) : Rat :=
  ((d.filter (fun p => p.2 == o)).map (fun p => p.1)).sum

/-! `AudioManager` (src/worker/discord/audio/AudioManager.ts): replay-gain
lookup, ffmpeg argument construction, and termination escalation. -/

/-- Outcome of the `ffprobe` metadata lookup in
`AudioManager.getAlbumGainFromFlac` (AudioManager.ts:280-313):
`probeError` for a failed `ffprobe`/JSON parse (the `catch` branch),
`noGainTag` for parsed metadata carrying no recognized replay-gain string tag,
and `tagValue s` for a found tag string `s`. -/
inductive GainLookup where
  | probeError : GainLookup
  | noGainTag : GainLookup
  | tagValue : String → GainLookup
deriving DecidableEq, Repr

/-- Digit run at the head of a character list (`\d*`). -/
def takeDigits (cs : List Char) : List Char × List Char :=
  (cs.takeWhile Char.isDigit, cs.dropWhile Char.isDigit)

/-- Greedy match of `\d+\.?\d*` at the head of a digit-starting list:
integer digits and fractional digits. -/
def takeNumBody (cs : List Char) : List Char × List Char :=
  let intPart := takeDigits cs
  match intPart.2 with
  | '.' :: r => (intPart.1, (takeDigits r).1)
  | _ => (intPart.1, [])

/-- Match of the regex `[+-]?\d+\.?\d*` anchored at the head of the list:
`some (isNegative, integer digits, fraction digits)`, `none` if the head
cannot start a match (an optional sign must be followed by a digit). -/
def numeralAt : List Char → Option (Bool × List Char × List Char)
  | [] => none
  | c :: cs =>
    if c == '-' || c == '+' then
      match cs with
      | d :: _ =>
        if d.isDigit then
          let b := takeNumBody cs
          some (c == '-', b.1, b.2)
        else none
      | [] => none
    else if c.isDigit then
      let b := takeNumBody (c :: cs)
      some (false, b.1, b.2)
    else none

/-- First match of `([+-]?\d+\.?\d*)` in the list, scanning left to right as
`String.prototype.match` does. -/
def findNumeral : List Char → Option (Bool × List Char × List Char)
  | [] => none
  | c :: cs =>
    match numeralAt (c :: cs) with
    | some m => some m
    | none => findNumeral cs

/-- Numeric value of a digit run. -/
def digitsToNat (ds : List Char) : Nat :=
  ds.foldl (fun a c => a * 10 + (c.toNat - '0'.toNat)) 0

/-- Value of a matched signed decimal numeral, as `parseFloat` reads it
(idealized to exact rational arithmetic). -/
def numeralToRat (neg : Bool) (intDs fracDs : List Char) : Rat :=
  let mag : Rat := (digitsToNat intDs : Rat) + (digitsToNat fracDs : Rat) / (10 ^ fracDs.length)
  if neg then -mag else mag

/-- The numeric extraction of AudioManager.ts:296-302: regex match on the tag
string followed by `parseFloat`.  A successful match always starts with a
digit or a signed digit, so `parseFloat` never yields `NaN` and the trailing
`|| 0` of the source is the identity on the parsed value. -/
def parseGain (s : String) : Option Rat :=
  (findNumeral s.toList).map (fun m => numeralToRat m.1 m.2.1 m.2.2)

/-- `AudioManager.getAlbumGainFromFlac` (AudioManager.ts:280-313) as a function
of the metadata lookup outcome: the parsed tag value when a numeral is found
in a present tag, and the explicit `-10` fallback when the probe failed, no
tag was found, or the tag string contains no numeral. -/
def getAlbumGainFromFlac : GainLookup → Rat
  | GainLookup.probeError => -10
  | GainLookup.noGainTag => -10
  | GainLookup.tagValue s =>
    match parseGain s with
    | some q => q
    | none => -10

/-- `const volumeAdjustment = -18 + albumGain` (AudioManager.ts:221). -/
def volumeAdjustment (albumGain : Rat) : Rat := -18 + albumGain

/-- The buffering constants of `AudioManager` (AudioManager.ts:25-27). -/
def BUFFER_SIZE : Nat := 100 * 1024 * 1024

/-- `PROBE_SIZE` (AudioManager.ts:26). -/
def PROBE_SIZE : Nat := 10 * 1024 * 1024

/-- `ANALYZE_DURATION` (AudioManager.ts:27). -/
def ANALYZE_DURATION : Nat := 5000000

/-- The value of `process.platform` distinguished by `buildFfmpegArgs`. -/
inductive Platform where
  | linux : Platform
  | win32 : Platform
  | other : Platform
deriving DecidableEq, Repr

/-- OS-specific ffmpeg arguments (AudioManager.ts:180-207).  `fmt` abstracts
JS number-to-string conversion, used wherever the source interpolates a
number. -/
def osArgs (fmt : Rat → String) : Platform → List String
  | Platform.linux =>
    ["-thread_queue_size", "4096", "-analyzeduration", "10000000", "-probesize", "20000000"]
  | Platform.win32 =>
    ["-thread_queue_size", "2048", "-analyzeduration", fmt (ANALYZE_DURATION : Nat),
     "-probesize", fmt (PROBE_SIZE : Nat)]
  | Platform.other =>
    ["-analyzeduration", fmt (ANALYZE_DURATION : Nat), "-probesize", fmt (PROBE_SIZE : Nat)]

/-- Buffering arguments (AudioManager.ts:171-178). -/
def bufferArgs (fmt : Rat → String) : List String :=
  ["-fflags", "+genpts+igndts", "-max_delay", "5000000", "-rtbufsize",
   fmt ((BUFFER_SIZE : Rat) / (1024 * 1024)) ++ "M"]

/-- The volume filter term `volume=${volumeAdjustment}dB` (AudioManager.ts:225,229). -/
def volumeFilter (fmt : Rat → String) (v : Rat) : String :=
  "volume=" ++ fmt v ++ "dB"

/-- The per-input stream references
`trackObj.map((_, index) => "[" + index + ":a:0]")` (AudioManager.ts:228). -/
def inputRefs (n : Nat) : List String :=
  (List.range n).map (fun i => "[" ++ toString i ++ ":a:0]")

/-- The `filter_complex` string of the multi-track branch
(AudioManager.ts:227-229). -/
def concatFilter (fmt : Rat → String) (n : Nat) (v : Rat) : String :=
  String.join (inputRefs n) ++ "concat=n=" ++ toString n ++ ":v=0:a=1[outa];[outa]"
    ++ volumeFilter fmt v ++ "[out]"

/-- Encoding arguments (AudioManager.ts:233-255). -/
def encodeArgs (fmt : Rat → String) (bitrate : Nat) : List String :=
  ["-c:a", "libopus", "-application", "audio", "-b:a", fmt (bitrate : Nat), "-vbr", "on",
   "-frame_duration", fmt 20, "-bufsize", fmt ((bitrate : Nat) * 2),
   "-maxrate", fmt ((bitrate : Rat) * 1.5), "-avoid_negative_ts", "make_zero",
   "-f", "opus", "pipe:1"]

/-- `AudioManager.buildFfmpegArgs` (AudioManager.ts:167-258).  `gainOf` gives
the ffprobe lookup outcome for a file path (the `await` of
`getAlbumGainFromFlac`), `fmt` abstracts JS number formatting, and
`_relativePath.slice(3)` is `String.drop 3`. -/
def buildFfmpegArgs (fmt : Rat → String) (gainOf : String → GainLookup) (plat : Platform)
    (trackObj : List TrackInfo) (bitrate : Nat) : List String :=
  let albumGain : Rat :=
    match trackObj with
    | [] => 0
    | t :: _ => getAlbumGainFromFlac (gainOf (t.relativePath.drop 3))
  let volumeAdj := volumeAdjustment albumGain
  bufferArgs fmt ++ osArgs fmt plat
    ++ trackObj.flatMap (fun t => ["-i", t.relativePath.drop 3])
    ++ (if trackObj.length == 1 then
          ["-af", volumeFilter fmt volumeAdj, "-map", "0:a"]
        else
          ["-filter_complex", concatFilter fmt trackObj.length volumeAdj, "-map", "[out]"])
    ++ encodeArgs fmt bitrate

/-! Termination escalation (`AudioManager.killFfmpegProcess`,
AudioManager.ts:48-109). -/

/-- How the encoder process responds to one termination signal: it exits `t` ms
after the signal is requested, raises a process `error` event at `t`, the
`kill()` call itself returns `false`, or it never reacts. -/
inductive PhaseOutcome where
  | exits : Nat → PhaseOutcome
  | errorEvent : Nat → PhaseOutcome
  | sendFail : PhaseOutcome
  | never : PhaseOutcome
deriving DecidableEq, Repr

/-- The 10 s timeout of both `Promise.race`s (AudioManager.ts:68,93). -/
def killTimeoutMs : Nat := 10000

/-- Result of one `Promise.race([wait-for-exit, timeout])` phase: `Except.ok t`
when the exit event resolves the race at `t`, `Except.error t` when the phase
fails at `t` (failed `kill()` call, process error event, or the timeout firing
at `killTimeoutMs`). -/
def phaseResult : PhaseOutcome → Except Nat Nat
  | PhaseOutcome.sendFail => Except.error 0
  | PhaseOutcome.exits t =>
    if t < killTimeoutMs then Except.ok t else Except.error killTimeoutMs
  | PhaseOutcome.errorEvent t =>
    if t < killTimeoutMs then Except.error t else Except.error killTimeoutMs
  | PhaseOutcome.never => Except.error killTimeoutMs

/-- Observable steps of the termination procedure, timestamped in ms from the
start of the call. -/
inductive KillStep where
  | sendSigterm : Nat → KillStep
  | gracefulExit : Nat → KillStep
  | sendSigkill : Nat → KillStep
  | forcedExit : Nat → KillStep
  | fatalError : Nat → KillStep
deriving DecidableEq, Repr

/-- `AudioManager.killFfmpegProcess` (AudioManager.ts:48-109): no-op unless a
live process is bound (`exitCode === null`); otherwise SIGTERM raced against
the 10 s timeout, on failure SIGKILL raced against another 10 s timeout, and on
repeated failure a `fatalError` step — the source posts an `error` envelope
from the inner `catch` and returns normally, so the result is a plain trace
and no exception escapes the worker. -/
def killFfmpegProcess (live : Bool) (graceful force : PhaseOutcome) : List KillStep :=
  if live then
    match phaseResult graceful with
    | Except.ok t => [KillStep.sendSigterm 0, KillStep.gracefulExit t]
    | Except.error tf =>
      match phaseResult force with
      | Except.ok t2 =>
        [KillStep.sendSigterm 0, KillStep.sendSigkill tf, KillStep.forcedExit (tf + t2)]
      | Except.error tf2 =>
        [KillStep.sendSigterm 0, KillStep.sendSigkill tf, KillStep.fatalError (tf + tf2)]
  else []

/-! The per-guild worker loop (`MessageHandler` dispatch and the `EventHandler`
listeners), and its closed loop with the orchestrator reaction of
`DiscordBot.setupWorkerEvents`. -/

/-- Envelope events the worker posts to the orchestrator
(`WorkerResponse`, src/worker/discord/types.ts). -/
inductive WEvent where
  | log : String → WEvent
  | error : String → WEvent
  | requestNext : WEvent
  | disconnect : WEvent
deriving DecidableEq, Repr

/-- Commands the orchestrator posts to the worker (`WorkerMessage`):
`play` carries the optional `data` field; `shutdown` carries whether its
`killFfmpegProcess` escalation confirms the exit. -/
inductive WCmd where
  | play : Option (List TrackInfo) → WCmd
  | skip : WCmd
  | leave : WCmd
  | shutdown : Bool → WCmd
deriving DecidableEq, Repr

/-- Worker-side state: the `EventHandler.leave` flag, whether the process
bound to `AudioManager.metadata` is live (`exitCode === null`), the number of
live ffmpeg processes spawned by this worker (a superseded process stays alive
until killed), and whether `process.exit` ran (`handleShutdown`). -/
structure WorkerState where
  leave : Bool
  boundLive : Bool
  liveProcs : Nat
  halted : Bool
deriving DecidableEq, Repr

/-- The worker state at spawn. -/
def WorkerState.init : WorkerState := ⟨false, false, 0, false⟩

/-- State effect and posted envelopes of one `killFfmpegProcess` call,
abstracted to whether the escalation confirmed the exit (`killOk`): on double
failure the process stays alive and an `error` envelope is posted
(AudioManager.ts:101-106). -/
def killEffect (killOk : Bool) (st : WorkerState) : WorkerState × List WEvent :=
  if st.boundLive then
    if killOk then
      ({ st with boundLive := false, liveProcs := st.liveProcs - 1 },
       [WEvent.log "Killing FFMPEG process..."])
    else
      (st, [WEvent.log "Killing FFMPEG process...",
            WEvent.error "Failed to kill FFMPEG process"])
  else (st, [])

/-- One input dispatched to the worker: an inbound command
(MessageHandler.handleMessage) or a listener firing (EventHandler). -/
inductive WInput where
  | cmd : WCmd → WInput
  | sigReady : WInput
  | sigIdle : Bool → WInput
  | sigDisconnected : WInput
  | sigDestroyed : WInput
  | sigVoiceEmpty : WInput
deriving DecidableEq, Repr

/-- One dispatch of the worker.  Commands follow `MessageHandler.handleMessage`
(the `throw` of `handlePlay`/`AudioManager.play` is caught by
`setupMessageHandler` and posted as an `error` envelope); signals follow the
`EventHandler` listeners (EventHandler.ts:55-131): `sigReady` posts
`requestNext`, `sigIdle killOk` is the `AudioPlayerStatus.Idle` listener which
returns early when `leave` is set and otherwise kills the bound process and
posts `requestNext`, `sigDestroyed` posts `disconnect`, and `sigVoiceEmpty`
(no non-bot member remains) sets the leave flag unless already set.  A halted
worker processes nothing. -/
def workerStep (st : WorkerState) (i : WInput) : WorkerState × List WEvent :=
  if st.halted then (st, [])
  else
    match i with
    | WInput.cmd (WCmd.play none) => (st, [WEvent.error "Play message requires track data"])
    | WInput.cmd (WCmd.play (some [])) => (st, [WEvent.error "No tracks provided."])
    | WInput.cmd (WCmd.play (some (_ :: _))) =>
      ({ st with boundLive := true, liveProcs := st.liveProcs + 1 }, [])
    | WInput.cmd WCmd.skip => (st, [])
    | WInput.cmd WCmd.leave => ({ st with leave := true }, [])
    | WInput.cmd (WCmd.shutdown killOk) =>
      let r := killEffect killOk st
      ({ r.1 with halted := true }, r.2 ++ [WEvent.log "Worker is shutting down..."])
    | WInput.sigReady => (st, [WEvent.log "Voice connection is ready", WEvent.requestNext])
    | WInput.sigIdle killOk =>
      if st.leave then (st, [])
      else
        let r := killEffect killOk st
        (r.1, r.2 ++ [WEvent.requestNext])
    | WInput.sigDisconnected => (st, [WEvent.log "Disconnected => cleanup"])
    | WInput.sigDestroyed => (st, [WEvent.log "Connection Destroyed", WEvent.disconnect])
    | WInput.sigVoiceEmpty =>
      if st.leave then (st, [])
      else ({ st with leave := true }, [WEvent.log "No non-bot => leaving"])

/-- The orchestrator reaction of `DiscordBot.setupWorkerEvents`
(discordBot.ts:137-178): on `requestNext` it sends `play` when sequencing or
random selection yields tracks (`next`) and `leave` otherwise; on `disconnect`
it sends `shutdown`; `log`/`error` go to console logging only. -/
def orchRespond (next : Option (List TrackInfo)) (shutKill : Bool) : WEvent → List WCmd
  | WEvent.requestNext =>
    match next with
    | some ts => [WCmd.play (some ts)]
    | none => [WCmd.leave]
  | WEvent.disconnect => [WCmd.shutdown shutKill]
  | _ => []

/-- External stimuli of one guild's closed orchestrator-worker loop.  Each
signal carries the environment data its handling consumes: `idle` and
`connDestroyed` carry whether the kill escalations they trigger confirm the
exit, and `connReady`/`idle` carry what the orchestrator's queue or random
pick would answer to a resulting `requestNext`. -/
inductive ExtSig where
  | connReady : Option (List TrackInfo) → ExtSig
  | idle : Bool → Option (List TrackInfo) → ExtSig
  | connDisconnected : ExtSig
  | connDestroyed : Bool → ExtSig
  | voiceEmpty : ExtSig
  | userLeave : ExtSig
  | userSkip : ExtSig
deriving DecidableEq, Repr

/-- The worker input produced by an external stimulus. -/
def extInput : ExtSig → WInput
  | ExtSig.connReady _ => WInput.sigReady
  | ExtSig.idle k _ => WInput.sigIdle k
  | ExtSig.connDisconnected => WInput.sigDisconnected
  | ExtSig.connDestroyed _ => WInput.sigDestroyed
  | ExtSig.voiceEmpty => WInput.sigVoiceEmpty
  | ExtSig.userLeave => WInput.cmd WCmd.leave
  | ExtSig.userSkip => WInput.cmd WCmd.skip

/-- The orchestrator's answer to a `requestNext` caused by this stimulus. -/
def extNext : ExtSig → Option (List TrackInfo)
  | ExtSig.connReady o => o
  | ExtSig.idle _ o => o
  | _ => none

/-- Whether the `shutdown` escalation caused by this stimulus confirms exit. -/
def extShutKill : ExtSig → Bool
  | ExtSig.connDestroyed k => k
  | _ => true

/-- The worker processing a command list in order. -/
def runCmds (st : WorkerState) (cs : List WCmd) : WorkerState × List WEvent :=
  cs.foldl (fun acc c =>
    let r := workerStep acc.1 (WInput.cmd c)
    (r.1, acc.2 ++ r.2)) (st, [])

/-- Closed-loop processing of one external stimulus: the worker handles it, the
orchestrator reacts to the posted envelopes, and the worker handles the induced
commands.  No deeper reaction exists: induced `play`/`leave`/`shutdown`
handling posts only `log`/`error` envelopes, to which the orchestrator responds
with console logging alone.  Returns the new state, all posted envelopes, and
all commands the orchestrator issued. -/
def stepClosed (st : WorkerState) (e : ExtSig) : WorkerState × List WEvent × List WCmd :=
  let r1 := workerStep st (extInput e)
  let cmds := r1.2.flatMap (orchRespond (extNext e) (extShutKill e))
  let r2 := runCmds r1.1 cmds
  (r2.1, r1.2 ++ r2.2, cmds)

/-- Closed-loop processing of a stimulus list. -/
def runClosed (st : WorkerState) : List ExtSig → WorkerState × List WEvent × List WCmd
  | [] => (st, [], [])
  | e :: es =>
    let r := stepClosed st e
    let rest := runClosed r.1 es
    (rest.1, r.2.1 ++ rest.2.1, r.2.2 ++ rest.2.2)

/-- The protocol-level events of the worker→orchestrator stream: the
state-machine events `requestNext` and `disconnect`, as opposed to the
`log`/`error` diagnostics. -/
def protoEvent : WEvent → Bool
  | WEvent.requestNext => true
  | WEvent.disconnect => true
  | _ => false

/-! Concrete fixtures used by counterexamples and witnesses. -/

/-- A sequence-grouped track on disc 2, track 1. -/
def tA : TrackInfo :=
  ⟨"../a.flac", some "Art", none, some "Alb", some "g", none, none, some 2, some 1⟩

/-- A track of the same sequence group on disc 1, track 2. -/
def tB : TrackInfo :=
  ⟨"../b.flac", some "Art", none, some "Alb", some "g", none, none, some 1, some 2⟩

/-- An unrelated track without a sequence-group key. -/
def tX : TrackInfo :=
  ⟨"../x.flac", some "Art2", none, some "Alb2", none, none, none, none, some 1⟩

/-- A track flagged `SkipWhenShuffling = "1"`. -/
def tE : TrackInfo :=
  ⟨"../e.flac", some "Art2", none, some "Alb2", none, some (JSVal.str "1"), none, none, some 2⟩

/-- A small consistent library holding the fixtures. -/
def lib2 : LibraryData :=
  ⟨4, [("Art", [("Alb", [tA, tB])]), ("Art2", [("Alb2", [tX, tE])])]⟩

/-- A degenerate `Math.random` stream. -/
def rand0 : Nat → Rat := fun _ => 0

/-- Modelled from the spec: the input-stream references a correct concat
filter must emit — inputs `0` through `n-1` in ascending list order. -/
def refsRec : Nat → String
  | 0 => ""
  | n + 1 => refsRec n ++ "[" ++ toString n ++ ":a:0]"

/-- A library whose only track is shuffle-excluded. -/
def libEx : LibraryData := ⟨1, [("Art2", [("Alb2", [tE])])]⟩

/-- Kill escalations triggered by this stimulus confirm the exit. -/
def killsOk : ExtSig → Bool
  | ExtSig.idle k _ => k
  | ExtSig.connDestroyed k => k
  | _ => true

/-- The stimulus is not a connection-ready signal. -/
def notReady : ExtSig → Bool
  | ExtSig.connReady _ => false
  | _ => true

/-- The single-pipeline invariant: the worker's live processes are exactly the
bound one when it is live. -/
def procInv (st : WorkerState) : Prop :=
  st.liveProcs = (if st.boundLive then 1 else 0)

/-- Modelled from the spec: the (disc ordinal, track ordinal) lexicographic
ascending comparison that §4.2 claims orders `sequenceTracks` output. -/
def specDiscTrackLEb (a b : TrackInfo) : Bool :=
  decide (a.discNumber.getD 0 < b.discNumber.getD 0) ||
    (decide (a.discNumber.getD 0 = b.discNumber.getD 0) &&
      decide (trackNumKey a ≤ trackNumKey b))

/-- C10: `sequenceTracks` is partial on its input.  For a track carrying a
sequence-group key it returns a list exactly when the
(album-artist-or-artist, album) bucket exists in the library map, and the
unguarded nested indexing throws (`Except.error`) when the bucket is absent;
for a track without a key it is total. -/
theorem sequenceTracks_partiality (lib : LibraryData) (t : TrackInfo) :
    (∃ l, sequenceTracks lib t = Except.ok l) ↔
      (strTruthy t.keepTracksInSequence = false ∨
        ∃ albums bucket, lookupKey lib.artistMap (artistKeyOf t) = some albums ∧
          lookupKey albums (albumKeyOf t) = some bucket) := by
  unfold sequenceTracks
  cases hk : strTruthy t.keepTracksInSequence with
  | false => simp
  | true =>
    simp only [if_true, Bool.true_eq_false, false_or]
    cases ha : lookupKey lib.artistMap (artistKeyOf t) with
    | none => simp
    | some albums =>
      cases hb : lookupKey albums (albumKeyOf t) with
      | none => simp [hb]
      | some bucket => simp [hb]

/-- Filtering by one exact sort key commutes with `orderedInsert` for the
track-number preorder: the inserted element lands in front of exactly the
strictly greater keys, so elements of equal key keep their relative order. -/
theorem filter_trackNum_orderedInsert (x : TrackInfo) (l : List TrackInfo) (k : Int) :
    (List.orderedInsert trackNumLE x l).filter (fun y => trackNumKey y == k) =
      if trackNumKey x == k then x :: l.filter (fun y => trackNumKey y == k)
      else l.filter (fun y => trackNumKey y == k) := by
  induction l with
  | nil =>
    by_cases hx : trackNumKey x == k <;> simp [List.orderedInsert, hx]
  | cons y ys ih =>
    by_cases hxy : trackNumLE x y
    · by_cases hx : trackNumKey x == k <;>
        by_cases hy : trackNumKey y == k <;>
          simp [List.orderedInsert, hxy, List.filter_cons, hx, hy]
    · have hyx : trackNumKey y < trackNumKey x := by
        unfold trackNumLE at hxy; omega
      by_cases hy : trackNumKey y == k
      · have hxk : ¬(trackNumKey x == k) = true := by
          simp only [beq_iff_eq] at hy ⊢; omega
        simp [List.orderedInsert, hxy, List.filter_cons, hy, hxk, ih]
      · simp [List.orderedInsert, hxy, List.filter_cons, hy, ih]

/-- Stability of the modelled sort: filtering the sorted list by one exact
track number gives the same subsequence as filtering the input. -/
theorem filter_trackNum_insertionSort (l : List TrackInfo) (k : Int) :
    (List.insertionSort trackNumLE l).filter (fun y => trackNumKey y == k) =
      l.filter (fun y => trackNumKey y == k) := by
  induction l with
  | nil => rfl
  | cons x xs ih =>
    by_cases hx : trackNumKey x == k <;>
      simp [List.insertionSort, filter_trackNum_orderedInsert, List.filter_cons, hx, ih]

/-- C2 counterexample: in `lib2`, track `tA` (disc 2, track 1) and its
sequence partner `tB` (disc 1, track 2) come back in the order `[tA, tB]`,
which violates the claimed (disc ordinal, track ordinal) ascending order at
its first pair — the source comparator reads only `Track Number`. -/
theorem sequenceTracks_not_disc_sorted :
    sequenceTracks lib2 tA = Except.ok [tA, tB] ∧
      specDiscTrackLEb tA tB = false := by decide

/-- C2 (amended): for an input with a sequence-group key whose bucket exists,
`sequenceTracks` returns the key-matching tracks of the bucket sorted by
track ordinal ascending (missing ordinal read as 0, disc ordinal not
consulted), ties keeping original bucket order (stability, stated per key);
an input without a key yields exactly the singleton. -/
theorem sequenceTracks_sorted_spec (lib : LibraryData) (t : TrackInfo)
    (albums : List (String × List TrackInfo)) (bucket l : List TrackInfo)
    (hk : strTruthy t.keepTracksInSequence = true)
    (ha : lookupKey lib.artistMap (artistKeyOf t) = some albums)
    (hb : lookupKey albums (albumKeyOf t) = some bucket)
    (hl : sequenceTracks lib t = Except.ok l) :
    List.Sorted trackNumLE l ∧
      l.Perm (bucket.filter (fun x => x.keepTracksInSequence == t.keepTracksInSequence)) ∧
      (∀ k : Int, l.filter (fun y => trackNumKey y == k) =
        (bucket.filter (fun x => x.keepTracksInSequence == t.keepTracksInSequence)).filter
          (fun y => trackNumKey y == k)) ∧
      (∀ u : TrackInfo, strTruthy u.keepTracksInSequence = false →
        sequenceTracks lib u = Except.ok [u]) := by
  have hl2 : l = List.insertionSort trackNumLE
      (bucket.filter (fun x => x.keepTracksInSequence == t.keepTracksInSequence)) := by
    unfold sequenceTracks at hl
    rw [hk] at hl
    simp only [if_true, ha, hb] at hl
    exact (Except.ok.injEq _ _ ▸ congrArg id hl).symm
  subst hl2
  refine ⟨List.sorted_insertionSort trackNumLE _, List.perm_insertionSort trackNumLE _,
    fun k => filter_trackNum_insertionSort _ k, fun u hu => by simp [sequenceTracks, hu]⟩

/-- C2 witness: the amended theorem applied to `lib2` and `tA`. -/
theorem sequenceTracks_sorted_spec_witness :
    List.Sorted trackNumLE [tA, tB] :=
  (sequenceTracks_sorted_spec lib2 tA [("Alb", [tA, tB])] [tA, tB] [tA, tB]
    (by decide) (by decide) (by decide) (by decide)).1

/-- C1 counterexample: with queue `[tA, tX]` in `lib2`, handling `requestNext`
dequeues the whole queue (`tA` and `tX`) although `sequenceTracks` on the head
returns `[tA, tB]` — the source removes a count of items, not the sequence
itself, so the dequeued tracks are not the sequenced tracks. -/
theorem handleRequestNext_blind_splice :
    sequenceTracks lib2 tA = Except.ok [tA, tB] ∧
      handleRequestNext lib2 rand0 ⟨none, [tA, tX]⟩ =
        Except.ok (⟨some [tA, tB], []⟩, [BotCmd.play [tA, tB]]) ∧
      [tA, tX] ≠ [tA, tB] := by decide

/-- C1 (amended): handling `requestNext` on a non-empty queue pops the head,
expands it with `sequenceTracks`, removes exactly `tracks.length` items from
the front of the queue, sets `currentTrack` to the expansion and sends `play`;
when the queue actually begins with the expanded run (as the enqueue path
produces), the removed items are exactly the sequenced tracks and the
remaining suffix is untouched. -/
theorem handleRequestNext_dequeues (lib : LibraryData) (rand : Nat → Rat)
    (ct : Option (List TrackInfo)) (head : TrackInfo) (rest tracks : List TrackInfo)
    (hseq : sequenceTracks lib head = Except.ok tracks)
    (hne : tracks ≠ [])
    (hrun : (head :: rest).take tracks.length = tracks) :
    handleRequestNext lib rand ⟨ct, head :: rest⟩ =
      Except.ok (⟨some tracks, (head :: rest).drop tracks.length⟩, [BotCmd.play tracks]) ∧
      (head :: rest).take tracks.length = tracks := by
  refine ⟨?_, hrun⟩
  unfold handleRequestNext
  simp only [hseq]
  cases tracks with
  | nil => exact absurd rfl hne
  | cons a as => simp [List.drop_succ_cons]

/-- C1 witness: the amended theorem applied to `lib2` with the queue holding
the full sequence run `[tA, tB]`. -/
theorem handleRequestNext_dequeues_witness :
    handleRequestNext lib2 rand0 ⟨none, [tA, tB]⟩ =
      Except.ok (⟨some [tA, tB], ([tA, tB] : List TrackInfo).drop ([tA, tB] : List TrackInfo).length⟩,
        [BotCmd.play [tA, tB]]) ∧
      ([tA, tB] : List TrackInfo).take ([tA, tB] : List TrackInfo).length = [tA, tB] :=
  handleRequestNext_dequeues lib2 rand0 none tA [tB] [tA, tB]
    (by decide) (by decide) (by decide)

/-- Joining a snoc of strings appends the last one. -/
theorem join_snoc (as : List String) (a : String) :
    String.join (as ++ [a]) = String.join as ++ a := by
  simp [String.join, List.foldl_append]

/-- The source's `map`/`join` construction of the stream references equals the
ascending-order recursion: the filter names inputs in list order. -/
theorem join_inputRefs (n : Nat) : String.join (inputRefs n) = refsRec n := by
  induction n with
  | zero => rfl
  | succ m ih =>
    have h1 : inputRefs (m + 1) = inputRefs m ++ ["[" ++ toString m ++ ":a:0]"] := by
      simp [inputRefs, List.range_succ]
    rw [h1, join_snoc, ih, refsRec]
    simp [String.append_assoc]

/-- C3: the single-track filter applies the fixed -18 dB base attenuation plus
the album replay gain read from the file; the gain falls back to -10 dB
whenever the metadata carries no gain value (failed probe, missing tag, or a
tag with no numeral), a parsed tag value is used as-is so a parsed 0 dB stays
distinct from the fallback, and the single-track arguments carry the
`volume=(-18+gain)dB` filter. -/
theorem albumGain_fallback_spec (fmt : Rat → String) (gainOf : String → GainLookup)
    (plat : Platform) (t : TrackInfo) (bitrate : Nat) (s : String) (q : Rat) :
    getAlbumGainFromFlac GainLookup.probeError = -10 ∧
    getAlbumGainFromFlac GainLookup.noGainTag = -10 ∧
    (parseGain s = some q → getAlbumGainFromFlac (GainLookup.tagValue s) = q) ∧
    (parseGain s = none → getAlbumGainFromFlac (GainLookup.tagValue s) = -10) ∧
    getAlbumGainFromFlac (GainLookup.tagValue "0.00 dB") = 0 ∧
    getAlbumGainFromFlac (GainLookup.tagValue "0.00 dB") ≠
      getAlbumGainFromFlac GainLookup.probeError ∧
    (∃ pre post, buildFfmpegArgs fmt gainOf plat [t] bitrate =
      pre ++ ["-af",
        volumeFilter fmt (volumeAdjustment (getAlbumGainFromFlac (gainOf (t.relativePath.drop 3)))),
        "-map", "0:a"] ++ post) := by
  have h000 : parseGain "0.00 dB" = some (numeralToRat false ['0'] ['0', '0']) := rfl
  have hd1 : digitsToNat ['0'] = 0 := by decide
  have hd2 : digitsToNat ['0', '0'] = 0 := by decide
  have hzero : getAlbumGainFromFlac (GainLookup.tagValue "0.00 dB") = 0 := by
    simp only [getAlbumGainFromFlac, h000]
    simp [numeralToRat, hd1, hd2]
  refine ⟨rfl, rfl, ?_, ?_, hzero, ?_, ?_⟩
  · intro h
    simp only [getAlbumGainFromFlac, h]
  · intro h
    simp only [getAlbumGainFromFlac, h]
  · rw [hzero]
    norm_num [getAlbumGainFromFlac]
  · refine ⟨bufferArgs fmt ++ osArgs fmt plat ++ ["-i", t.relativePath.drop 3],
      encodeArgs fmt bitrate, ?_⟩
    simp [buildFfmpegArgs]

/-- C3 witness: the fallback applied to a failed probe and to a tag string
containing no numeral. -/
theorem albumGain_fallback_spec_witness :
    getAlbumGainFromFlac GainLookup.probeError = -10 ∧
    getAlbumGainFromFlac (GainLookup.tagValue "dB") = -10 :=
  ⟨(albumGain_fallback_spec (fun _ => "") (fun _ => GainLookup.probeError)
      Platform.linux tX 256 "dB" 0).1,
    (albumGain_fallback_spec (fun _ => "") (fun _ => GainLookup.probeError)
      Platform.linux tX 256 "dB" 0).2.2.2.1 (by decide)⟩

/-- C9: for two or more tracks the argument list carries one
`-filter_complex` whose filter string references the input streams `0..n-1`
in list order, concatenates them into the one logical stream `[outa]`, and
applies to it exactly the volume filter term the single-track branch uses
(the same -18 dB base plus the first track's album gain), mapping the single
output `[out]`. -/
theorem buildFfmpegArgs_concat_spec (fmt : Rat → String) (gainOf : String → GainLookup)
    (plat : Platform) (bitrate : Nat) (t u : TrackInfo) (ts : List TrackInfo) :
    (∃ pre post, buildFfmpegArgs fmt gainOf plat (t :: u :: ts) bitrate =
      pre ++ ["-filter_complex",
        refsRec (t :: u :: ts).length ++ "concat=n=" ++ toString (t :: u :: ts).length ++
          ":v=0:a=1[outa];[outa]" ++
          volumeFilter fmt
            (volumeAdjustment (getAlbumGainFromFlac (gainOf (t.relativePath.drop 3)))) ++
          "[out]",
        "-map", "[out]"] ++ post) ∧
    (∃ pre2 post2, buildFfmpegArgs fmt gainOf plat [t] bitrate =
      pre2 ++ ["-af",
        volumeFilter fmt
          (volumeAdjustment (getAlbumGainFromFlac (gainOf (t.relativePath.drop 3)))),
        "-map", "0:a"] ++ post2) := by
  constructor
  · refine ⟨bufferArgs fmt ++ osArgs fmt plat
        ++ (t :: u :: ts).flatMap (fun x => ["-i", x.relativePath.drop 3]),
      encodeArgs fmt bitrate, ?_⟩
    have hlen : ((t :: u :: ts).length == 1) = false := by
      simp [List.length_cons]
    simp only [buildFfmpegArgs, hlen, if_false, concatFilter, join_inputRefs]
    simp [List.append_assoc]
  · refine ⟨bufferArgs fmt ++ osArgs fmt plat ++ ["-i", t.relativePath.drop 3],
      encodeArgs fmt bitrate, ?_⟩
    simp [buildFfmpegArgs]

/-- A failing `Promise.race` phase fails no later than the 10 s timeout. -/
theorem phaseResult_error_le (g : PhaseOutcome) (t : Nat)
    (h : phaseResult g = Except.error t) : t ≤ killTimeoutMs := by
  cases g with
  | sendFail => simp [phaseResult] at h; omega
  | never => simp [phaseResult] at h; omega
  | exits u =>
    by_cases hu : u < killTimeoutMs <;> simp [phaseResult, hu] at h
    all_goals omega
  | errorEvent u =>
    by_cases hu : u < killTimeoutMs <;> simp [phaseResult, hu] at h
    all_goals omega

/-- A resolving `Promise.race` phase resolves strictly before the timeout. -/
theorem phaseResult_ok_lt (g : PhaseOutcome) (t : Nat)
    (h : phaseResult g = Except.ok t) : t < killTimeoutMs := by
  cases g with
  | sendFail => simp [phaseResult] at h
  | never => simp [phaseResult] at h
  | exits u =>
    by_cases hu : u < killTimeoutMs <;> simp [phaseResult, hu] at h
    all_goals omega
  | errorEvent u =>
    by_cases hu : u < killTimeoutMs <;> simp [phaseResult, hu] at h

/-- A phase against a process that never reacts fails exactly at the timeout. -/
theorem phaseResult_never_eq : phaseResult PhaseOutcome.never = Except.error killTimeoutMs := rfl

/-- C4: the termination escalation is bounded and ordered.  A graceful exit is
observed strictly within the 10 s deadline; SIGKILL is sent exactly when the
graceful phase has failed, at its failure time, which is the full deadline when
the process never reacts to SIGTERM; a forced exit lands within 10 s of the
SIGKILL; a fatal error is surfaced only when the force phase has also failed,
within 10 s of the SIGKILL and exactly 10 s after it for a process that never
reacts; and in the never-react scenario the call returns the complete
escalation trace (surfacing the error as an event, not an exception). -/
theorem killFfmpeg_escalation (live : Bool) (g f : PhaseOutcome) :
    (∀ t, KillStep.gracefulExit t ∈ killFfmpegProcess live g f → t < killTimeoutMs) ∧
    (∀ t, KillStep.sendSigkill t ∈ killFfmpegProcess live g f →
      t ≤ killTimeoutMs ∧ phaseResult g = Except.error t ∧
        (g = PhaseOutcome.never → t = killTimeoutMs)) ∧
    (∀ tk t, KillStep.sendSigkill tk ∈ killFfmpegProcess live g f →
      KillStep.forcedExit t ∈ killFfmpegProcess live g f → t < tk + killTimeoutMs) ∧
    (∀ t, KillStep.fatalError t ∈ killFfmpegProcess live g f →
      ∃ tk, KillStep.sendSigkill tk ∈ killFfmpegProcess live g f ∧ t ≤ tk + killTimeoutMs ∧
        (f = PhaseOutcome.never → t = tk + killTimeoutMs)) ∧
    killFfmpegProcess true PhaseOutcome.never PhaseOutcome.never =
      [KillStep.sendSigterm 0, KillStep.sendSigkill killTimeoutMs,
       KillStep.fatalError (2 * killTimeoutMs)] := by
  cases live with
  | false =>
    refine ⟨?_, ?_, ?_, ?_, by decide⟩ <;> intro t <;> simp [killFfmpegProcess]
  | true =>
    cases hg : phaseResult g with
    | ok tg =>
      refine ⟨?_, ?_, ?_, ?_, by decide⟩
      · intro t h
        simp only [killFfmpegProcess, if_true, hg, List.mem_cons, List.not_mem_nil] at h
        rcases h with h | h | h
        · exact absurd h (by simp)
        · cases h
          exact phaseResult_ok_lt g tg hg
        · exact absurd h (by simp)
      · intro t h
        simp [killFfmpegProcess, hg] at h
      · intro tk t h
        simp [killFfmpegProcess, hg] at h
      · intro t h
        simp [killFfmpegProcess, hg] at h
    | error tg =>
      have htg : tg ≤ killTimeoutMs := phaseResult_error_le g tg hg
      have hgnever : g = PhaseOutcome.never → tg = killTimeoutMs := by
        intro hgn
        rw [hgn, phaseResult_never_eq] at hg
        exact (Except.error.injEq _ _ ▸ hg).symm
      cases hf : phaseResult f with
      | ok tf =>
        have htf : tf < killTimeoutMs := phaseResult_ok_lt f tf hf
        refine ⟨?_, ?_, ?_, ?_, by decide⟩
        · intro t h
          simp [killFfmpegProcess, hg, hf] at h
        · intro t h
          simp only [killFfmpegProcess, if_true, hg, hf, List.mem_cons, List.not_mem_nil] at h
          rcases h with h | h | h | h
          · exact absurd h (by simp)
          · cases h
            exact ⟨htg, rfl, hgnever⟩
          · exact absurd h (by simp)
          · exact absurd h (by simp)
        · intro tk t h1 h2
          simp only [killFfmpegProcess, if_true, hg, hf, List.mem_cons, List.not_mem_nil] at h1 h2
          have hk : tk = tg := by
            rcases h1 with h | h | h | h
            · exact absurd h (by simp)
            · cases h; rfl
            · exact absurd h (by simp)
            · exact absurd h (by simp)
          have ht : t = tg + tf := by
            rcases h2 with h | h | h | h
            · exact absurd h (by simp)
            · exact absurd h (by simp)
            · cases h; rfl
            · exact absurd h (by simp)
          omega
        · intro t h
          simp [killFfmpegProcess, hg, hf] at h
      | error tf2 =>
        have htf2 : tf2 ≤ killTimeoutMs := phaseResult_error_le f tf2 hf
        have hfnever : f = PhaseOutcome.never → tf2 = killTimeoutMs := by
          intro hfn
          rw [hfn, phaseResult_never_eq] at hf
          exact (Except.error.injEq _ _ ▸ hf).symm
        refine ⟨?_, ?_, ?_, ?_, by decide⟩
        · intro t h
          simp [killFfmpegProcess, hg, hf] at h
        · intro t h
          simp only [killFfmpegProcess, if_true, hg, hf, List.mem_cons, List.not_mem_nil] at h
          rcases h with h | h | h | h
          · exact absurd h (by simp)
          · cases h
            exact ⟨htg, rfl, hgnever⟩
          · exact absurd h (by simp)
          · exact absurd h (by simp)
        · intro tk t h1 h2
          simp [killFfmpegProcess, hg, hf] at h2
        · intro t h
          simp only [killFfmpegProcess, if_true, hg, hf, List.mem_cons, List.not_mem_nil] at h
          have ht : t = tg + tf2 := by
            rcases h with h | h | h | h
            · exact absurd h (by simp)
            · exact absurd h (by simp)
            · cases h; rfl
            · exact absurd h (by simp)
          refine ⟨tg, ?_, ?_, ?_⟩
          · simp [killFfmpegProcess, hg, hf]
          · omega
          · intro hfn
            have := hfnever hfn
            omega

/-- C4 witness: the escalation theorem applied to a live process that never
reacts to either signal, at the SIGKILL step of its trace. -/
theorem killFfmpeg_escalation_witness :
    (10000 : Nat) ≤ killTimeoutMs ∧
      phaseResult PhaseOutcome.never = Except.error 10000 ∧
      (PhaseOutcome.never = PhaseOutcome.never → (10000 : Nat) = killTimeoutMs) :=
  (killFfmpeg_escalation true PhaseOutcome.never PhaseOutcome.never).2.1 10000 (by decide)

/-- Skipping an ineligible candidate leaves the reservoir state unchanged. -/
theorem reservoirStep_skip (rand : Nat → Rat) (st : Nat × Option TrackInfo) (t : TrackInfo)
    (h : isEligible t = false) : reservoirStep rand st t = st := by
  simp [reservoirStep, h]

/-- The reservoir fold consumes exactly the eligible candidates. -/
theorem foldl_reservoir_filter (rand : Nat → Rat) (l : List TrackInfo)
    (st : Nat × Option TrackInfo) :
    l.foldl (reservoirStep rand) st = (l.filter isEligible).foldl (reservoirStep rand) st := by
  induction l generalizing st with
  | nil => rfl
  | cons t ts ih =>
    cases h : isEligible t with
    | false =>
      simp [List.foldl_cons, List.filter_cons, h, reservoirStep_skip rand st t h, ih]
    | true => simp [List.foldl_cons, List.filter_cons, h, ih]

/-- The reservoir fold result is the initial selection or one of the
candidates. -/
theorem resFold_mem (rand : Nat → Rat) (l : List TrackInfo) (n : Nat)
    (sel : Option TrackInfo) (t : TrackInfo)
    (h : (l.foldl (reservoirStep rand) (n, sel)).2 = some t) :
    sel = some t ∨ t ∈ l := by
  induction l generalizing n sel with
  | nil => exact Or.inl h
  | cons x xs ih =>
    simp only [List.foldl_cons] at h
    by_cases hx : isEligible x = true
    · by_cases hr : rand n < 1 / ((n : Rat) + 1)
      · rw [reservoirStep, if_pos hx, if_pos hr] at h
        rcases ih _ _ h with h1 | h1
        · exact Or.inr (by simp [Option.some.inj h1])
        · exact Or.inr (List.mem_cons_of_mem _ h1)
      · rw [reservoirStep, if_pos hx, if_neg hr] at h
        rcases ih _ _ h with h1 | h1
        · exact Or.inl h1
        · exact Or.inr (List.mem_cons_of_mem _ h1)
    · rw [reservoirStep, if_neg hx] at h
      rcases ih _ _ h with h1 | h1
      · exact Or.inl h1
      · exact Or.inr (List.mem_cons_of_mem _ h1)

/-- Once the reservoir holds a selection, it always ends with a selection. -/
theorem resFold_some_of_some (rand : Nat → Rat) (l : List TrackInfo) (n : Nat) (w : TrackInfo) :
    ∃ v, (l.foldl (reservoirStep rand) (n, some w)).2 = some v := by
  induction l generalizing n w with
  | nil => exact ⟨w, rfl⟩
  | cons x xs ih =>
    by_cases hx : isEligible x = true
    · by_cases hr : rand n < 1 / ((n : Rat) + 1)
      · rw [List.foldl_cons, reservoirStep, if_pos hx, if_pos hr]
        exact ih (n + 1) x
      · rw [List.foldl_cons, reservoirStep, if_pos hx, if_neg hr]
        exact ih (n + 1) w
    · rw [List.foldl_cons, reservoirStep, if_neg hx]
      exact ih n w

/-- The very first eligible candidate is always selected: the comparison is
against `1/1` and `Math.random` is strictly below `1`. -/
theorem resFold_nonempty (rand : Nat → Rat) (x : TrackInfo) (xs : List TrackInfo)
    (hx : isEligible x = true) (hr : rand 0 < 1) :
    ∃ v, ((x :: xs).foldl (reservoirStep rand) ((0 : Nat), (none : Option TrackInfo))).2 =
      some v := by
  have hone : (1 : Rat) / (((0 : Nat) : Rat) + 1) = 1 := by norm_num
  have h1 : reservoirStep rand (0, none) x = (1, some x) := by
    rw [reservoirStep, if_pos hx, hone, if_pos hr]
  simpa [List.foldl_cons, h1] using resFold_some_of_some rand xs 1 x

/-- Branch weights add over concatenated branch lists. -/
theorem probOf_append (d1 d2 : List (Rat × Option TrackInfo)) (o : Option TrackInfo) :
    probOf (d1 ++ d2) o = probOf d1 o + probOf d2 o := by
  simp [probOf, List.filter_append]

/-- Scaling every branch weight scales the outcome weight. -/
theorem probOf_scale (c : Rat) (d : List (Rat × Option TrackInfo)) (o : Option TrackInfo) :
    probOf (d.map (fun p => (c * p.1, p.2))) o = c * probOf d o := by
  induction d with
  | nil => simp [probOf]
  | cons p ps ih =>
    by_cases hp : (p.2 == o) = true <;>
      simp [probOf, List.filter_cons, hp, mul_add] <;>
      simpa [probOf] using ih

/-- A selection that is neither current nor among the remaining candidates has
probability zero. -/
theorem reservoirDist_zero (ts : List TrackInfo) (n : Nat) (sel : Option TrackInfo)
    (z : TrackInfo) (hz : z ∉ ts) (hsel : sel ≠ some z) :
    probOf (reservoirDist ts sel n) (some z) = 0 := by
  induction ts generalizing sel n with
  | nil => simp [reservoirDist, probOf, List.filter_cons, hsel]
  | cons t ts ih =>
    have hz1 : z ≠ t := by
      intro h
      exact hz (h ▸ List.mem_cons_self t ts)
    have hz2 : z ∉ ts := fun h => hz (List.mem_cons_of_mem _ h)
    have ht : (some t : Option TrackInfo) ≠ some z := by
      intro h
      exact hz1 (Option.some.inj h).symm
    simp only [reservoirDist]
    rw [probOf_append, probOf_scale, probOf_scale, ih (n + 1) (some t) hz2 ht,
      ih (n + 1) sel hz2 hsel]
    ring

/-- Survival of the current selection across the remaining candidates. -/
theorem reservoirDist_keep (ts : List TrackInfo) (n : Nat) (z : TrackInfo)
    (hz : z ∉ ts) (hn : 1 ≤ n) :
    probOf (reservoirDist ts (some z) n) (some z) =
      (n : Rat) / ((n : Rat) + ts.length) := by
  induction ts generalizing n with
  | nil =>
    have hne : (n : Rat) ≠ 0 := by
      have : (0 : Rat) < (n : Rat) := by exact_mod_cast hn
      exact ne_of_gt this
    simp [reservoirDist, probOf, List.filter_cons, div_self hne]
  | cons t ts ih =>
    have hz1 : z ≠ t := by
      intro h
      exact hz (h ▸ List.mem_cons_self t ts)
    have hz2 : z ∉ ts := fun h => hz (List.mem_cons_of_mem _ h)
    have ht : (some t : Option TrackInfo) ≠ some z := by
      intro h
      exact hz1 (Option.some.inj h).symm
    simp only [reservoirDist]
    rw [probOf_append, probOf_scale, probOf_scale,
      reservoirDist_zero ts (n + 1) (some t) z hz2 ht,
      ih (n + 1) hz2 (Nat.le_succ_of_le hn)]
    push_cast [List.length_cons]
    rw [mul_zero, zero_add]
    have key : (1 - 1 / ((n : Rat) + 1)) = (n : Rat) / ((n : Rat) + 1) := by
      field_simp
    rw [key, div_mul_div_comm]
    rw [div_eq_div_iff (by positivity) (by positivity)]
    ring

/-- Uniformity of the reservoir branch semantics: starting with `n` candidates
already seen and a current selection outside the remaining distinct
candidates, each remaining candidate ends selected with probability
`1/(n + length)`. -/
theorem reservoirDist_uniform (ts : List TrackInfo) (n : Nat) (sel : Option TrackInfo)
    (z : TrackInfo) (hnd : ts.Nodup) (hz : z ∈ ts)
    (hsel : ∀ w, sel = some w → w ∉ ts) :
    probOf (reservoirDist ts sel n) (some z) = 1 / ((n : Rat) + ts.length) := by
  induction ts generalizing sel n with
  | nil => cases hz
  | cons t ts ih =>
    have hnd1 : t ∉ ts := (List.nodup_cons.mp hnd).1
    have hnd2 : ts.Nodup := (List.nodup_cons.mp hnd).2
    simp only [reservoirDist]
    rw [probOf_append, probOf_scale, probOf_scale]
    rcases List.mem_cons.mp hz with rfl | hzts
    · have hselz : sel ≠ some z := by
        intro h
        exact hsel z h (List.mem_cons_self z ts)
      rw [reservoirDist_keep ts (n + 1) z hnd1 (Nat.le_add_left 1 n),
        reservoirDist_zero ts (n + 1) sel z hnd1 hselz]
      push_cast [List.length_cons]
      rw [mul_zero, add_zero, div_mul_div_comm]
      rw [div_eq_div_iff (by positivity) (by positivity)]
      ring
    · have hsel1 : ∀ w, (some t : Option TrackInfo) = some w → w ∉ ts := by
        intro w hw
        rw [← Option.some.inj hw]
        exact hnd1
      have hsel2 : ∀ w, sel = some w → w ∉ ts := by
        intro w hw hmem
        exact hsel w hw (List.mem_cons_of_mem _ hmem)
      rw [ih (n + 1) (some t) hnd2 hzts hsel1, ih (n + 1) sel hnd2 hzts hsel2]
      push_cast [List.length_cons]
      rw [← add_mul]
      have key : (1 / ((n : Rat) + 1) + (1 - 1 / ((n : Rat) + 1))) = 1 := by ring
      rw [key, one_mul]
      congr 1
      ring

/-- C7: `getRandomItem` never returns a shuffle-excluded track, for any random
stream; with in-range randoms and the parser-maintained count invariant it
returns `none` exactly when the catalog is empty or fully excluded; and under
the Bernoulli branch semantics of `Math.random() < 1/totalValidTracks`, each
of `N` distinct eligible tracks is selected with probability exactly `1/N`. -/
theorem getRandomItem_spec (lib : LibraryData) (rand : Nat → Rat)
    (hcount : lib.allTracksCount = (allTracks lib).length)
    (hrand : ∀ n, 0 ≤ rand n ∧ rand n < 1) :
    (∀ t, getRandomItem lib rand = some t → isEligible t = true) ∧
    (getRandomItem lib rand = none ↔ eligibleTracks lib = []) ∧
    ((eligibleTracks lib).Nodup →
      ∀ t ∈ eligibleTracks lib,
        probOf (reservoirDist (eligibleTracks lib) none 0) (some t) =
          1 / ((eligibleTracks lib).length : Rat)) := by
  refine ⟨?_, ⟨?_, ?_⟩, ?_⟩
  · intro t h
    unfold getRandomItem at h
    by_cases hc : (lib.allTracksCount == 0) = true
    · rw [if_pos hc] at h
      cases h
    · rw [if_neg hc, foldl_reservoir_filter] at h
      rcases resFold_mem rand _ 0 none t h with h1 | h1
      · cases h1
      · exact (List.mem_filter.mp h1).2
  · intro h
    cases he : eligibleTracks lib with
    | nil => rfl
    | cons e es =>
      exfalso
      have hcne : (lib.allTracksCount == 0) = false := by
        have hmem : e ∈ allTracks lib := by
          have := he ▸ List.mem_cons_self e es
          exact (List.mem_filter.mp this).1
        have : allTracks lib ≠ [] := fun hnil => by
          rw [hnil] at hmem
          cases hmem
        have hlen : (allTracks lib).length ≠ 0 :=
          fun h0 => this (List.length_eq_zero.mp h0)
        simp [hcount, hlen]
      rw [getRandomItem, if_neg (by simp [hcne]), foldl_reservoir_filter] at h
      have helig : isEligible e = true := by
        have := he ▸ List.mem_cons_self e es
        exact (List.mem_filter.mp this).2
      rcases resFold_nonempty rand e es helig (hrand 0).2 with ⟨v, hv⟩
      rw [show (allTracks lib).filter isEligible = e :: es from he] at h
      rw [h] at hv
      cases hv
  · intro h
    rw [getRandomItem]
    by_cases hc : (lib.allTracksCount == 0) = true
    · rw [if_pos hc]
    · rw [if_neg hc, foldl_reservoir_filter]
      rw [show (allTracks lib).filter isEligible = eligibleTracks lib from rfl, h]
      rfl
  · intro hnd t ht
    have := reservoirDist_uniform (eligibleTracks lib) 0 none t hnd ht
      (fun w hw => by cases hw)
    simpa using this

/-- C7 witness: the theorem applied to the fully excluded library `libEx`
(yielding `none`) and to `lib2`, whose three distinct eligible tracks are each
selected with probability `1/3`. -/
theorem getRandomItem_spec_witness :
    getRandomItem libEx rand0 = none ∧
      probOf (reservoirDist (eligibleTracks lib2) none 0) (some tX) =
        1 / ((eligibleTracks lib2).length : Rat) :=
  ⟨((getRandomItem_spec libEx rand0 (by decide) (fun n => by simp [rand0])).2.1).mpr
      (by decide),
    (getRandomItem_spec lib2 rand0 (by decide) (fun n => by simp [rand0])).2.2
      (by decide) tX (by decide)⟩

/-- C8 counterexample: a `play` command with absent track data does cross the
worker→orchestrator boundary — the caught error is posted upward as an
`error` envelope (MessageHandler catches the throw and forwards it), not kept
local. -/
theorem play_missing_data_event :
    (workerStep WorkerState.init (WInput.cmd (WCmd.play none))).2 =
      [WEvent.error "Play message requires track data"] ∧
    (workerStep WorkerState.init (WInput.cmd (WCmd.play none))).2 ≠ [] := by decide

/-- C8 (amended): `play` requires non-empty track data; absent or empty data
raises an error that is caught inside the worker — the state is unchanged, no
pipeline is spawned and the worker survives — and is reported upward as an
`error` envelope, to which the orchestrator reacts with console logging only
(no command is induced). -/
theorem play_missing_data_local (st : WorkerState) (h : st.halted = false) :
    workerStep st (WInput.cmd (WCmd.play none)) =
      (st, [WEvent.error "Play message requires track data"]) ∧
    workerStep st (WInput.cmd (WCmd.play (some []))) =
      (st, [WEvent.error "No tracks provided."]) ∧
    (∀ next shutKill s, orchRespond next shutKill (WEvent.error s) = []) := by
  refine ⟨by simp [workerStep, h], by simp [workerStep, h], fun next shutKill s => rfl⟩

/-- C8 witness: the amended theorem applied to the fresh worker state. -/
theorem play_missing_data_local_witness :
    workerStep WorkerState.init (WInput.cmd (WCmd.play none)) =
      (WorkerState.init, [WEvent.error "Play message requires track data"]) :=
  (play_missing_data_local WorkerState.init (by decide)).1

/-- C6 counterexample: when the idle-triggered kill escalation fails (both
phases), the loop still emits `requestNext` and the next `play` spawns a
second pipeline while the first process is alive — the worker reaches a state
with two live encoder subprocesses. -/
theorem two_live_pipelines :
    (runClosed WorkerState.init
      [ExtSig.connReady (some [tX]), ExtSig.idle false (some [tX])]).1.liveProcs = 2 := by
  decide

/-- One closed-loop step preserves the single-pipeline invariant when the
triggered kill escalations confirm the exit and the stimulus is not a
connection-ready signal. -/
theorem stepClosed_procInv (st : WorkerState) (e : ExtSig)
    (hInv : procInv st) (hk : killsOk e = true) (hnr : notReady e = true) :
    procInv (stepClosed st e).1 := by
  by_cases hh : st.halted = true
  · have hs : (stepClosed st e).1 = st := by
      cases e <;> simp [stepClosed, workerStep, hh, runCmds, extInput]
    rw [hs]
    exact hInv
  · have hh2 : st.halted = false := by simpa using hh
    cases e with
    | connReady o => simp [notReady] at hnr
    | idle k o =>
      have hk2 : k = true := by simpa [killsOk] using hk
      subst hk2
      by_cases hl : st.leave = true
      · simpa [stepClosed, workerStep, extInput, hh2, hl, runCmds] using hInv
      · have hl2 : st.leave = false := by simpa using hl
        by_cases hb : st.boundLive = true
        · have hp : st.liveProcs = 1 := by simpa [procInv, hb] using hInv
          cases o with
          | none =>
            simp [stepClosed, workerStep, extInput, extNext, extShutKill, hh2, hl2, hb,
              killEffect, runCmds, orchRespond, procInv, hp]
          | some ts =>
            cases ts with
            | nil =>
              simp [stepClosed, workerStep, extInput, extNext, extShutKill, hh2, hl2, hb,
                killEffect, runCmds, orchRespond, procInv, hp]
            | cons t ts2 =>
              simp [stepClosed, workerStep, extInput, extNext, extShutKill, hh2, hl2, hb,
                killEffect, runCmds, orchRespond, procInv, hp]
        · have hb2 : st.boundLive = false := by simpa using hb
          have hp : st.liveProcs = 0 := by simpa [procInv, hb2] using hInv
          cases o with
          | none =>
            simp [stepClosed, workerStep, extInput, extNext, extShutKill, hh2, hl2, hb2,
              killEffect, runCmds, orchRespond, procInv, hp]
          | some ts =>
            cases ts with
            | nil =>
              simp [stepClosed, workerStep, extInput, extNext, extShutKill, hh2, hl2, hb2,
                killEffect, runCmds, orchRespond, procInv, hp]
            | cons t ts2 =>
              simp [stepClosed, workerStep, extInput, extNext, extShutKill, hh2, hl2, hb2,
                killEffect, runCmds, orchRespond, procInv, hp]
    | connDisconnected =>
      simpa [stepClosed, workerStep, extInput, hh2, runCmds] using hInv
    | connDestroyed k =>
      have hk2 : k = true := by simpa [killsOk] using hk
      subst hk2
      by_cases hb : st.boundLive = true
      · have hp : st.liveProcs = 1 := by simpa [procInv, hb] using hInv
        simp [stepClosed, workerStep, extInput, extNext, extShutKill, hh2, hb, killEffect,
          runCmds, orchRespond, procInv, hp]
      · have hb2 : st.boundLive = false := by simpa using hb
        have hp : st.liveProcs = 0 := by simpa [procInv, hb2] using hInv
        simp [stepClosed, workerStep, extInput, extNext, extShutKill, hh2, hb2, killEffect,
          runCmds, orchRespond, procInv, hp]
    | voiceEmpty =>
      by_cases hl : st.leave = true <;>
        simpa [stepClosed, workerStep, extInput, hh2, hl, runCmds] using hInv
    | userLeave =>
      simpa [stepClosed, workerStep, extInput, hh2, runCmds] using hInv
    | userSkip =>
      simpa [stepClosed, workerStep, extInput, hh2, runCmds] using hInv

/-- The closed loop preserves the single-pipeline invariant along any stimulus
list whose kill escalations all succeed and which carries no connection-ready
signal. -/
theorem runClosed_procInv (sigs : List ExtSig) (st : WorkerState)
    (hInv : procInv st) (hk : ∀ e ∈ sigs, killsOk e = true)
    (hnr : ∀ e ∈ sigs, notReady e = true) : procInv (runClosed st sigs).1 := by
  induction sigs generalizing st with
  | nil => exact hInv
  | cons e es ih =>
    have h1 := stepClosed_procInv st e hInv (hk e (List.mem_cons_self e es))
      (hnr e (List.mem_cons_self e es))
    exact ih (stepClosed st e).1 h1
      (fun x hx => hk x (List.mem_cons_of_mem _ hx))
      (fun x hx => hnr x (List.mem_cons_of_mem _ hx))

/-- After the opening connection-ready stimulus, the fresh worker satisfies
the single-pipeline invariant. -/
theorem stepClosed_init_ready (first : Option (List TrackInfo)) :
    procInv (stepClosed WorkerState.init (ExtSig.connReady first)).1 := by
  cases first with
  | none => unfold procInv; decide
  | some ts =>
    cases ts with
    | nil => unfold procInv; decide
    | cons t ts2 =>
      simp [stepClosed, workerStep, extInput, extNext, extShutKill, runCmds, orchRespond,
        killEffect, WorkerState.init, procInv]

/-- C6 (amended): provided every triggered kill escalation confirms the exit
and the connection-ready signal occurs only as the opening stimulus, every
reachable worker state carries at most one live encoder subprocess — a new
pipeline starts only after the previous process's termination was confirmed
by the `killFfmpegProcess` escalation that precedes the `requestNext`. -/
theorem single_pipeline_invariant (first : Option (List TrackInfo)) (rest : List ExtSig)
    (hk : ∀ e ∈ rest, killsOk e = true)
    (hnr : ∀ e ∈ rest, notReady e = true) :
    ∀ p q, ExtSig.connReady first :: rest = p ++ q →
      (runClosed WorkerState.init p).1.liveProcs ≤ 1 := by
  intro p q hpq
  cases p with
  | nil => decide
  | cons x p2 =>
    have hx : x = ExtSig.connReady first := by
      have := congrArg (fun l => List.head? l) hpq
      simpa using this.symm
    have hp2 : p2 ++ q = rest := by
      have := congrArg (fun l => List.tail l) hpq
      simpa using this.symm
    subst hx
    have hmem : ∀ e ∈ p2, e ∈ rest := by
      intro e he
      rw [← hp2]
      exact List.mem_append.mpr (Or.inl he)
    have hinv : procInv (runClosed (stepClosed WorkerState.init (ExtSig.connReady first)).1 p2).1 :=
      runClosed_procInv p2 _ (stepClosed_init_ready first)
        (fun e he => hk e (hmem e he)) (fun e he => hnr e (hmem e he))
    have hrw : (runClosed WorkerState.init (ExtSig.connReady first :: p2)).1 =
        (runClosed (stepClosed WorkerState.init (ExtSig.connReady first)).1 p2).1 := rfl
    rw [hrw]
    rw [procInv] at hinv
    rw [hinv]
    split <;> omega

/-- C6 witness: the amended theorem applied to a ready-then-idle trace with a
succeeding kill escalation, at its full prefix. -/
theorem single_pipeline_invariant_witness :
    (runClosed WorkerState.init
      [ExtSig.connReady (some [tX]), ExtSig.idle true (some [tX])]).1.liveProcs ≤ 1 :=
  single_pipeline_invariant (some [tX]) [ExtSig.idle true (some [tX])]
    (by decide) (by decide)
    [ExtSig.connReady (some [tX]), ExtSig.idle true (some [tX])] [] rfl

/-- The orchestrator reaction to a `log` envelope is console logging only. -/
@[simp] theorem orchRespond_log (next : Option (List TrackInfo)) (shutKill : Bool) (s : String) :
    orchRespond next shutKill (WEvent.log s) = [] := rfl

/-- The orchestrator reaction to an `error` envelope is console logging only. -/
@[simp] theorem orchRespond_error (next : Option (List TrackInfo)) (shutKill : Bool) (s : String) :
    orchRespond next shutKill (WEvent.error s) = [] := rfl

/-- The orchestrator answers `disconnect` with a `shutdown` command. -/
@[simp] theorem orchRespond_disconnect (next : Option (List TrackInfo)) (shutKill : Bool) :
    orchRespond next shutKill WEvent.disconnect = [WCmd.shutdown shutKill] := rfl

/-- One closed-loop step from a left state (leave flag set), on any stimulus
other than connection-ready: the flag stays set, no `requestNext` is posted
(every protocol event posted is `disconnect`), and no `play` command is
issued. -/
theorem stepClosed_leave (st : WorkerState) (e : ExtSig)
    (hl : st.leave = true) (hnr : notReady e = true) :
    (stepClosed st e).1.leave = true ∧
    (∀ ev ∈ (stepClosed st e).2.1, protoEvent ev = true → ev = WEvent.disconnect) ∧
    (∀ d, WCmd.play d ∉ (stepClosed st e).2.2) := by
  by_cases hh : st.halted = true
  · refine ⟨?_, ?_, ?_⟩ <;>
      cases e <;>
        simp [stepClosed, workerStep, hh, hl, runCmds, extInput]
  · have hh2 : st.halted = false := by simpa using hh
    cases e with
    | connReady o => simp [notReady] at hnr
    | idle k o =>
      refine ⟨?_, ?_, ?_⟩ <;>
        simp [stepClosed, workerStep, extInput, hh2, hl, runCmds]
    | connDisconnected =>
      refine ⟨?_, ?_, ?_⟩ <;>
        simp [stepClosed, workerStep, extInput, hh2, hl, runCmds, protoEvent]
    | connDestroyed k =>
      by_cases hb : st.boundLive = true
      · refine ⟨?_, ?_, ?_⟩ <;>
          cases k <;>
            simp [stepClosed, workerStep, extInput, extShutKill, hh2, hl, hb, killEffect,
              runCmds, orchRespond, protoEvent]
      · have hb2 : st.boundLive = false := by simpa using hb
        refine ⟨?_, ?_, ?_⟩ <;>
          cases k <;>
            simp [stepClosed, workerStep, extInput, extShutKill, hh2, hl, hb2, killEffect,
              runCmds, orchRespond, protoEvent]
    | voiceEmpty =>
      refine ⟨?_, ?_, ?_⟩ <;>
        simp [stepClosed, workerStep, extInput, hh2, hl, runCmds]
    | userLeave =>
      refine ⟨?_, ?_, ?_⟩ <;>
        simp [stepClosed, workerStep, extInput, hh2, runCmds]
    | userSkip =>
      refine ⟨?_, ?_, ?_⟩ <;>
        simp [stepClosed, workerStep, extInput, hh2, hl, runCmds]

/-- C5: once the leave flag is set, along any further stimulus stream in which
the (destroyed) connection never signals ready again, the worker emits no
`requestNext` — in particular a stale stream-idle signal is swallowed — so the
orchestrator issues no further `play` command for the guild, and every
protocol-level event that still crosses to the orchestrator is `disconnect`
(`log`/`error` diagnostics aside). -/
theorem leave_blocks_requestNext (st : WorkerState) (sigs : List ExtSig)
    (hl : st.leave = true)
    (hnr : ∀ e ∈ sigs, notReady e = true) :
    WEvent.requestNext ∉ (runClosed st sigs).2.1 ∧
    (∀ d, WCmd.play d ∉ (runClosed st sigs).2.2) ∧
    (∀ ev ∈ (runClosed st sigs).2.1, protoEvent ev = true → ev = WEvent.disconnect) := by
  induction sigs generalizing st with
  | nil =>
    refine ⟨by simp [runClosed], fun d => by simp [runClosed], fun ev hev => ?_⟩
    simp [runClosed] at hev
  | cons e es ih =>
    obtain ⟨h1, h2, h3⟩ := stepClosed_leave st e hl (hnr e (List.mem_cons_self e es))
    obtain ⟨ih1, ih2, ih3⟩ := ih (stepClosed st e).1 h1
      (fun x hx => hnr x (List.mem_cons_of_mem _ hx))
    refine ⟨?_, ?_, ?_⟩
    · intro hmem
      have : WEvent.requestNext ∈ (stepClosed st e).2.1 ∨
          WEvent.requestNext ∈ (runClosed (stepClosed st e).1 es).2.1 := by
        simpa [runClosed] using hmem
      rcases this with h | h
      · have := h2 WEvent.requestNext h (by rfl)
        cases this
      · exact ih1 h
    · intro d hmem
      have : WCmd.play d ∈ (stepClosed st e).2.2 ∨
          WCmd.play d ∈ (runClosed (stepClosed st e).1 es).2.2 := by
        simpa [runClosed] using hmem
      rcases this with h | h
      · exact h3 d h
      · exact ih2 d h
    · intro ev hmem hproto
      have : ev ∈ (stepClosed st e).2.1 ∨
          ev ∈ (runClosed (stepClosed st e).1 es).2.1 := by
        simpa [runClosed] using hmem
      rcases this with h | h
      · exact h2 ev h hproto
      · exact ih3 ev h hproto

/-- C5 witness: the theorem applied to a left worker receiving a stale idle
signal and then the connection-destroyed signal. -/
theorem leave_blocks_requestNext_witness :
    WEvent.requestNext ∉
      (runClosed ⟨true, true, 1, false⟩
        [ExtSig.idle true none, ExtSig.connDestroyed true]).2.1 ∧
    (∀ d, WCmd.play d ∉
      (runClosed ⟨true, true, 1, false⟩
        [ExtSig.idle true none, ExtSig.connDestroyed true]).2.2) ∧
    (∀ ev ∈ (runClosed ⟨true, true, 1, false⟩
        [ExtSig.idle true none, ExtSig.connDestroyed true]).2.1,
      protoEvent ev = true → ev = WEvent.disconnect) :=
  leave_blocks_requestNext ⟨true, true, 1, false⟩
    [ExtSig.idle true none, ExtSig.connDestroyed true] (by decide) (by decide)

end AiraMusicBot
